import Mathlib

/-!
Verification of the team-setup wizard (TeamSetupScreen / WorkflowTemplateSetup).

The TypeScript sources are shallowly embedded:
* JavaScript runtime values reaching `normalizeTeamSetupData(raw: unknown)`
  are modelled by `JsValue` (JSON-parseable values plus `undefined` and the
  non-finite numbers, since the function is typed over `unknown`).
* JavaScript numbers are modelled by `JsNum` with exact rationals for the
  finite case; `Math.min/Math.max/Math.round` become the corresponding exact
  operations on `ℚ`.
* `generateId()` (a random 8-character string) is modelled as an injected
  supply `fresh : Nat → String`, one slot per array position that may need a
  generated id.
* `String.prototype.trim` is modelled by `jsTrim` over the common ASCII
  whitespace characters.
* `Number(string)` is modelled by `jsNumberOfString`, a decimal parser
  (optional sign, integer and fractional digits); exponent/hex forms are not
  modelled.
-/

/-- Whitespace characters removed by `String.prototype.trim` (ASCII subset). -/
def isJsWs (c : Char) : Bool :=
  c = ' ' || c = '\t' || c = '\n' || c = '\r'

/-- Trim on the character list: drop leading and trailing whitespace. -/
def trimChars (cs : List Char) : List Char :=
  ((cs.dropWhile isJsWs).reverse.dropWhile isJsWs).reverse

/-- Model of `String.prototype.trim`. -/
def jsTrim (s : String) : String :=
  String.mk (trimChars s.data)

/-- JavaScript numbers: NaN, the two infinities, or a finite value (exact ℚ). -/
inductive JsNum where
  | nan : JsNum
  | inf : JsNum
  | ninf : JsNum
  | fin : ℚ → JsNum
deriving DecidableEq

/-- JavaScript values that can reach `normalizeTeamSetupData` (typed `unknown`). -/
inductive JsValue where
  | null : JsValue
  | undefinedVal : JsValue
  | bool : Bool → JsValue
  | num : JsNum → JsValue
  | str : String → JsValue
  | arr : List JsValue → JsValue
  | obj : List (String × JsValue) → JsValue

/-- Property access `v?.k`: `undefined` on anything but an object with the key. -/
def JsValue.getField (v : JsValue) (k : String) : JsValue :=
  match v with
  | .obj fs => (fs.lookup k).getD .undefinedVal
  | _ => .undefinedVal

/-- JavaScript truthiness. -/
def truthy : JsValue → Bool
  | .null => false
  | .undefinedVal => false
  | .bool b => b
  | .num .nan => false
  | .num (.fin q) => decide (q ≠ 0)
  | .num _ => true
  | .str s => decide (s ≠ "")
  | .arr _ => true
  | .obj _ => true

/-- `typeof v === "string"`. -/
def isStringVal : JsValue → Bool
  | .str _ => true
  | _ => false

/-- `Array.isArray`. -/
def isArrayVal : JsValue → Bool
  | .arr _ => true
  | _ => false

/-- `typeof v === "object"` (true for objects, arrays and `null`). -/
def isObjectTyped : JsValue → Bool
  | .obj _ => true
  | .arr _ => true
  | .null => true
  | _ => false

structure Capability where
  id : String
  code : String
  description : String
deriving DecidableEq, Repr

structure StaffMember where
  id : String
  code : String
  name : String
  capacity : ℚ
  capabilityIds : List String
deriving DecidableEq, Repr

structure TeamSetupData where
  capabilities : List Capability
  staffMembers : List StaffMember
deriving DecidableEq, Repr

/-- The id rule of `normalizeTeamSetupData`:
`capability?.id && typeof capability.id === "string" && capability.id.trim()
  ? capability.id.trim() : generateId()`. -/
def normId (fresh : String) (idv : JsValue) : String :=
  if truthy idv && isStringVal idv then
    match idv with
    | .str s => if truthy (.str (jsTrim s)) then jsTrim s else fresh
    | _ => fresh
  else fresh

/-- `typeof v === "string" ? v : ""`. -/
def strOrEmpty (v : JsValue) : String :=
  match v with
  | .str s => s
  | _ => ""

/-- One element of the `capabilities.map` in `normalizeTeamSetupData`. -/
def normCapOne (fresh : String) (v : JsValue) : Capability :=
  { id := normId fresh (v.getField "id")
    code := strOrEmpty (v.getField "code")
    description := strOrEmpty (v.getField "description") }

/-- The `capabilities.map`, threading the position used for generated ids. -/
def normCaps (fresh : Nat → String) : Nat → List JsValue → List Capability
  | _, [] => []
  | i, v :: rest => normCapOne (fresh i) v :: normCaps fresh (i + 1) rest

/-- One element of the `staffMembers.map` in `normalizeTeamSetupData`;
`validIds` is the id set of the just-normalized capabilities. -/
def normStaffOne (fresh : String) (validIds : List String) (v : JsValue) : StaffMember :=
  { id := normId fresh (v.getField "id")
    code := strOrEmpty (v.getField "code")
    name := strOrEmpty (v.getField "name")
    capacity :=
      min (max (match v.getField "capacity" with
                | .num (.fin q) => q
                | _ => 1) (1/2)) (3/2)
    capabilityIds :=
      match v.getField "capabilityIds" with
      | .arr xs =>
          xs.filterMap fun x =>
            match x with
            | .str s => if validIds.contains s then some s else none
            | _ => none
      | _ => [] }

/-- The `staffMembers.map`, threading positions for generated ids. -/
def normStaffs (fresh : Nat → String) (validIds : List String) :
    Nat → List JsValue → List StaffMember
  | _, [] => []
  | i, v :: rest =>
      normStaffOne (fresh i) validIds v :: normStaffs fresh validIds (i + 1) rest

/-- `normalizeTeamSetupData(raw)` (TeamSetupScreen).  Returns `none` for the
`null` result; the supply `fresh` stands for `generateId()`. -/
def normalizeTeamSetupData (fresh : Nat → String) (raw : JsValue) : Option TeamSetupData :=
  if !truthy raw || !isObjectTyped raw then none
  else
    match raw.getField "capabilities", raw.getField "staffMembers" with
    | .arr capsArr, .arr staffArr =>
        let capabilities := normCaps fresh 0 capsArr
        let validCapabilityIds := capabilities.map Capability.id
        let staffMembers :=
          normStaffs fresh validCapabilityIds capsArr.length staffArr
        some { capabilities := capabilities, staffMembers := staffMembers }
    | _, _ => none

/-! ## Team composition editor operations (TeamSetupScreen) -/

/-- The two user-editable capability text fields. -/
inductive CapField where
  | code : CapField
  | description : CapField
deriving DecidableEq

/-- The two user-editable staff text fields. -/
inductive StaffField where
  | code : StaffField
  | name : StaffField
deriving DecidableEq

/-- `handleCapabilityChange`: update one field of the capability with the id. -/
def handleCapabilityChange (capabilityId : String) (key : CapField) (value : String)
    (prev : List Capability) : List Capability :=
  prev.map fun cap =>
    if cap.id = capabilityId then
      match key with
      | .code => { cap with code := value }
      | .description => { cap with description := value }
    else cap

/-- `handleDeleteCapability`: drop the capability and prune staff references. -/
def handleDeleteCapability (capabilityId : String) (st : TeamSetupData) : TeamSetupData :=
  { capabilities := st.capabilities.filter fun cap => cap.id != capabilityId
    staffMembers := st.staffMembers.map fun member =>
      { member with
          capabilityIds := member.capabilityIds.filter fun id => id != capabilityId } }

/-- The digits of a string in order: `s.replace(/\D/g, "")`. -/
def digitsStr (s : String) : String :=
  String.mk (s.data.filter Char.isDigit)

/-- `parseInt(digits, 10)` on a digit-only string: `NaN` (none) when empty. -/
def numericSuffix (code : String) : Option Nat :=
  let ds := (digitsStr code).data
  if ds.isEmpty then none
  else some (ds.foldl (fun n c => n * 10 + (c.toNat - '0'.toNat)) 0)

/-- `getNextCapabilityCode`: `C` followed by 1 + the max numeric suffix. -/
def getNextCapabilityCode (capabilities : List Capability) : String :=
  let numericValues := capabilities.filterMap fun cap => numericSuffix cap.code
  let nextNumber := if numericValues.isEmpty then 1 else numericValues.foldl Nat.max 0 + 1
  "C" ++ toString nextNumber

/-- `getNextStaffCode`: `S` followed by 1 + the max numeric suffix. -/
def getNextStaffCode (staffMembers : List StaffMember) : String :=
  let numericValues := staffMembers.filterMap fun member => numericSuffix member.code
  let nextNumber := if numericValues.isEmpty then 1 else numericValues.foldl Nat.max 0 + 1
  "S" ++ toString nextNumber

/-- `handleAddCapability`; `fresh` stands for the `generateId()` call. -/
def handleAddCapability (fresh : String) (prev : List Capability) : List Capability :=
  let nextCode := getNextCapabilityCode prev
  prev ++ [{ id := fresh
             code := nextCode
             description := jsTrim ("Capability " ++ digitsStr nextCode) }]

/-- `handleStaffChange`: update one text field of the staff member with the id. -/
def handleStaffChange (staffId : String) (key : StaffField) (value : String)
    (prev : List StaffMember) : List StaffMember :=
  prev.map fun member =>
    if member.id = staffId then
      match key with
      | .code => { member with code := value }
      | .name => { member with name := value }
    else member

/-- `handleDeleteStaffMember`. -/
def handleDeleteStaffMember (staffId : String) (prev : List StaffMember) : List StaffMember :=
  prev.filter fun member => member.id != staffId

/-- `handleAddStaffMember`; `fresh` stands for the `generateId()` call. -/
def handleAddStaffMember (fresh : String) (prev : List StaffMember) : List StaffMember :=
  let nextCode := getNextStaffCode prev
  prev ++ [{ id := fresh
             code := nextCode
             name := jsTrim ("Staff " ++ digitsStr nextCode)
             capacity := 1
             capabilityIds := [] }]

/-- `Math.round` on a finite value: round half toward positive infinity. -/
def jsRound (q : ℚ) : ℤ :=
  ⌊q + 1/2⌋

/-- Unsigned decimal numeral: digits with an optional decimal point. -/
def parseUnsigned (cs : List Char) : Option ℚ :=
  match cs.splitOn '.' with
  | [intPart] =>
      if intPart.isEmpty || !intPart.all Char.isDigit then none
      else some ((intPart.foldl (fun n c => n * 10 + (c.toNat - '0'.toNat)) 0 : ℕ) : ℚ)
  | [intPart, fracPart] =>
      if (intPart.isEmpty && fracPart.isEmpty)
          || !intPart.all Char.isDigit || !fracPart.all Char.isDigit then none
      else
        some (((intPart.foldl (fun n c => n * 10 + (c.toNat - '0'.toNat)) 0 : ℕ) : ℚ)
          + ((fracPart.foldl (fun n c => n * 10 + (c.toNat - '0'.toNat)) 0 : ℕ) : ℚ)
            / ((10 : ℚ) ^ fracPart.length))
  | _ => none

/-- Model of `Number(string)` on plain decimal notation: the trimmed empty
string converts to `0`; otherwise an optional sign and a decimal numeral;
anything else is `NaN`. -/
def jsNumberOfString (s : String) : JsNum :=
  let t := (jsTrim s).data
  if t.isEmpty then .fin 0
  else
    match t with
    | '-' :: rest => match parseUnsigned rest with
      | some q => .fin (-q)
      | none => .nan
    | '+' :: rest => match parseUnsigned rest with
      | some q => .fin q
      | none => .nan
    | _ => match parseUnsigned t with
      | some q => .fin q
      | none => .nan

/-- The capacity stored by `handleStaffCapacityChange` for the edited member:
trim-empty input resets to 1, `NaN` resets to 1, and a number is divided by
100, clamped with `Math.min(Math.max(·, 0.5), 1.5)` and rounded to two
decimals via `Math.round(normalized * 100) / 100` (the infinities clamp to
the interval ends before rounding). -/
def newCapacity (rawValue : String) : ℚ :=
  if jsTrim rawValue = "" then 1
  else
    match jsNumberOfString rawValue with
    | .nan => 1
    | .fin q => ((jsRound (min (max (q / 100) (1/2)) (3/2) * 100) : ℤ) : ℚ) / 100
    | .inf => ((jsRound ((3/2 : ℚ) * 100) : ℤ) : ℚ) / 100
    | .ninf => ((jsRound ((1/2 : ℚ) * 100) : ℤ) : ℚ) / 100

/-- `handleStaffCapacityChange`: percentage string to clamped, rounded capacity. -/
def handleStaffCapacityChange (staffId : String) (rawValue : String)
    (prev : List StaffMember) : List StaffMember :=
  prev.map fun member =>
    if member.id ≠ staffId then member
    else { member with capacity := newCapacity rawValue }

/-- `toggleStaffCapability`: symmetric membership flip. -/
def toggleStaffCapability (staffId capabilityId : String)
    (prev : List StaffMember) : List StaffMember :=
  prev.map fun member =>
    if member.id ≠ staffId then member
    else if member.capabilityIds.contains capabilityId then
      { member with capabilityIds := member.capabilityIds.filter fun id => id != capabilityId }
    else
      { member with capabilityIds := member.capabilityIds ++ [capabilityId] }

/-- JSON shape of one capability in the exported payload (`handleSaveTeam`). -/
def capabilityToJs (c : Capability) : JsValue :=
  .obj [("id", .str c.id), ("code", .str c.code), ("description", .str c.description)]

/-- JSON shape of one staff member in the exported payload. -/
def staffMemberToJs (m : StaffMember) : JsValue :=
  .obj [("id", .str m.id), ("code", .str m.code), ("name", .str m.name),
        ("capacity", .num (.fin m.capacity)),
        ("capabilityIds", .arr (m.capabilityIds.map JsValue.str))]

/-- The payload built by `handleSaveTeam` (and the snapshot effect), as the
JSON value it serializes to. -/
def exportTeamSetup (teamCode teamName savedAt : String) (st : TeamSetupData) : JsValue :=
  .obj [("teamCode", .str teamCode), ("teamName", .str teamName),
        ("capabilities", .arr (st.capabilities.map capabilityToJs)),
        ("staffMembers", .arr (st.staffMembers.map staffMemberToJs)),
        ("savedAt", .str savedAt)]

/-- Outcome banner set by the load handler. -/
inductive LoadFeedback where
  | success : LoadFeedback
  | error : LoadFeedback
deriving DecidableEq

/-- `handleLoadTeam`'s reader callback: `parsed` is the result of
`JSON.parse` (`none` when it threw).  On a `null` normalization the handler
throws into its own catch, leaving state untouched. -/
def handleLoadTeam (fresh : Nat → String) (parsed : Option JsValue)
    (prev : TeamSetupData) : TeamSetupData × LoadFeedback :=
  match parsed with
  | none => (prev, .error)
  | some v =>
      match normalizeTeamSetupData fresh v with
      | none => (prev, .error)
      | some d => ({ capabilities := d.capabilities, staffMembers := d.staffMembers }, .success)

/-! ## Workflow template editor (WorkflowTemplateSetup) -/

structure TemplateTask where
  id : String
  seqNumber : Nat
  task : String
  estimate : String
  capabilityId : String
deriving DecidableEq, Repr

/-- The three fixed template keys. -/
inductive TemplateKey where
  | enhancement : TemplateKey
  | defect : TemplateKey
  | incident : TemplateKey
deriving DecidableEq

/-- The `Record<TemplateKey, TemplateTask[]>` state. -/
structure Templates where
  enhancement : List TemplateTask
  defect : List TemplateTask
  incident : List TemplateTask
deriving DecidableEq

def Templates.get (t : Templates) : TemplateKey → List TemplateTask
  | .enhancement => t.enhancement
  | .defect => t.defect
  | .incident => t.incident

def Templates.set (t : Templates) (k : TemplateKey) (l : List TemplateTask) : Templates :=
  match k with
  | .enhancement => { t with enhancement := l }
  | .defect => { t with defect := l }
  | .incident => { t with incident := l }

/-- The `.map((task, index) => ...seqNumber: (index+1)*10)` part of
`normalizeSequence`, with the running index explicit. -/
def assignSeq : Nat → List TemplateTask → List TemplateTask
  | _, [] => []
  | i, t :: ts => { t with seqNumber := (i + 1) * 10 } :: assignSeq (i + 1) ts

/-- `normalizeSequence`: reassign `(index+1)*10` then sort by `seqNumber`
(`Array.prototype.sort` with comparator `a.seqNumber - b.seqNumber` is a
stable ascending sort, modelled by `mergeSort`). -/
def normalizeSequence (tasks : List TemplateTask) : List TemplateTask :=
  (assignSeq 0 tasks).mergeSort fun a b => a.seqNumber ≤ b.seqNumber

/-- `handleAddTask`; `fresh` stands for the `generateId()` call, and
`capabilities` is the capability list passed down from the controller. -/
def handleAddTask (fresh : String) (capabilities : List Capability)
    (templateKey : TemplateKey) (prev : Templates) : Templates :=
  let current := prev.get templateKey
  let nextCapabilityId :=
    match current.getLast? with
    | some t => t.capabilityId
    | none =>
        match capabilities.head? with
        | some c => c.id
        | none => ""
  prev.set templateKey
    (current ++ [{ id := fresh
                   seqNumber := (current.length + 1) * 10
                   task := ""
                   estimate := ""
                   capabilityId := nextCapabilityId }])

/-- The three user-editable task fields (all string-valued). -/
inductive TaskField where
  | task : TaskField
  | estimate : TaskField
  | capabilityId : TaskField
deriving DecidableEq

/-- `handleTaskChange`: in-place field update followed by re-sequencing. -/
def handleTaskChange (templateKey : TemplateKey) (taskId : String)
    (key : TaskField) (value : String) (prev : Templates) : Templates :=
  let current := prev.get templateKey
  let updated := current.map fun task =>
    if task.id = taskId then
      match key with
      | .task => { task with task := value }
      | .estimate => { task with estimate := value }
      | .capabilityId => { task with capabilityId := value }
    else task
  prev.set templateKey (normalizeSequence updated)

/-- Swap the elements at two (in-range) positions. -/
def swapIdx (l : List TemplateTask) (i j : Nat) : List TemplateTask :=
  match l[i]?, l[j]? with
  | some a, some b => (l.set i b).set j a
  | _, _ => l

inductive MoveDir where
  | up : MoveDir
  | down : MoveDir
deriving DecidableEq

/-- `handleMoveTask`: swap with the adjacent element, no-op at a boundary
(`swapIndex < 0 || swapIndex >= list.length` returns `prev` unchanged),
then re-sequence. -/
def handleMoveTask (templateKey : TemplateKey) (taskId : String) (direction : MoveDir)
    (prev : Templates) : Templates :=
  let current := prev.get templateKey
  match current.findIdx? (fun task => task.id == taskId) with
  | none => prev
  | some index =>
      match direction with
      | .up =>
          if index = 0 then prev
          else prev.set templateKey (normalizeSequence (swapIdx current (index - 1) index))
      | .down =>
          if index + 1 ≥ current.length then prev
          else prev.set templateKey (normalizeSequence (swapIdx current index (index + 1)))

/-- `handleDeleteTask`: remove then re-sequence. -/
def handleDeleteTask (templateKey : TemplateKey) (taskId : String)
    (prev : Templates) : Templates :=
  let current := prev.get templateKey
  prev.set templateKey (normalizeSequence (current.filter fun task => task.id != taskId))

/-! ## Specification-side definitions

The following definitions are written from the specification's words, to be
compared with the source-derived definitions above. -/

/-- The spec's acceptance condition: the input is an object whose
`capabilities` and `staffMembers` fields are arrays. -/
def specShape (raw : JsValue) : Bool :=
  match raw with
  | .obj _ => isArrayVal (raw.getField "capabilities")
      && isArrayVal (raw.getField "staffMembers")
  | _ => false

/-- The spec's id rule (as amended): keep the trimmed id when the field is a
string whose trim is non-empty, else use a generated id. -/
def specId (fresh : String) (idv : JsValue) : String :=
  match idv with
  | .str s => if jsTrim s = "" then fresh else jsTrim s
  | _ => fresh

/-- The spec's clamp to `[0.5, 1.5]`. -/
def specClamp (q : ℚ) : ℚ :=
  if q < 1/2 then 1/2 else if 3/2 < q then 3/2 else q

/-- The spec's rounding to two decimal places (half up). -/
def specRound2 (q : ℚ) : ℚ :=
  ((⌊q * 100 + 1/2⌋ : ℤ) : ℚ) / 100

/-- Capability normalization as the spec words it. -/
def specNormCap (fresh : String) (v : JsValue) : Capability :=
  { id := specId fresh (v.getField "id")
    code := match v.getField "code" with | .str s => s | _ => ""
    description := match v.getField "description" with | .str s => s | _ => "" }

/-- Staff-member normalization as the spec words it: same id rule, string
fields defaulted to `""`, capacity defaulted to 1 when not a finite number
then clamped, `capabilityIds` defaulted to `[]` and filtered to ids present
in the normalized capability id set. -/
def specNormStaff (fresh : String) (validIds : List String) (v : JsValue) : StaffMember :=
  { id := specId fresh (v.getField "id")
    code := match v.getField "code" with | .str s => s | _ => ""
    name := match v.getField "name" with | .str s => s | _ => ""
    capacity := specClamp (match v.getField "capacity" with
      | .num (.fin q) => q
      | _ => 1)
    capabilityIds :=
      match v.getField "capabilityIds" with
      | .arr xs => xs.filterMap fun x =>
          match x with
          | .str s => if s ∈ validIds then some s else none
          | _ => none
      | _ => [] }

/-- The sequencing invariant: `seqNumber` values are exactly `10, 20, 30, …`
in list order. -/
def SeqInvariant (l : List TemplateTask) : Prop :=
  ∀ i (h : i < l.length), (l.get ⟨i, h⟩).seqNumber = (i + 1) * 10

/-- A string with no JS whitespace characters. -/
@[reducible] def WsFree (s : String) : Prop :=
  ∀ c ∈ s.data, isJsWs c = false

/-- A deterministic stand-in for the `generateId()` supply, used in concrete
evaluations. -/
def gen0 : Nat → String := fun n => "gen" ++ toString n

/-- Concrete import payload whose capability has a whitespace-only (hence
non-empty) string id. -/
def wsIdInput : JsValue :=
  .obj [("capabilities", .arr [.obj [("id", .str "   ")]]),
        ("staffMembers", .arr [])]

/-- Concrete import payload carrying two capabilities with the same id. -/
def dupIdInput : JsValue :=
  .obj [("capabilities", .arr [.obj [("id", .str "a")], .obj [("id", .str "a")]]),
        ("staffMembers", .arr [])]

/-- The spec's scenario input: `capabilities` is a string, not an array. -/
def badShapeInput : JsValue :=
  .obj [("capabilities", .str "not-an-array"), ("staffMembers", .arr [])]

/-- A proper object literal (not an array, not `null`). -/
def isObjectLiteral : JsValue → Bool
  | .obj _ => true
  | _ => false

/-- Concrete import payload with a non-object capability entry and a
non-object staff entry. -/
def nonObjectEntriesInput : JsValue :=
  .obj [("capabilities", .arr [.null]), ("staffMembers", .arr [.num .nan])]

/-- A template state whose first and last tasks share the id `"a"`. -/
def dupIdTemplates : Templates :=
  { enhancement := [⟨"a", 10, "t1", "", ""⟩, ⟨"b", 20, "t2", "", ""⟩, ⟨"a", 30, "t3", "", ""⟩]
    defect := []
    incident := [] }

/-! ## Helper lemmas -/

theorem nextNumber_spec (l : List ℕ) :
    (if l.isEmpty then 1 else l.foldl Nat.max 0 + 1) = 1 + (l.max?.getD 0) := by
  cases l with
  | nil => rfl
  | cons a as =>
      simp only [List.isEmpty_cons, List.foldl_cons, List.max?, Option.getD_some,
        if_neg Bool.false_ne_true]
      show List.foldl max (max 0 a) as + 1 = 1 + List.foldl max a as
      rw [max_eq_right (Nat.zero_le a), Nat.add_comm]

theorem minmax_eq_specClamp (q : ℚ) : min (max q (1/2)) (3/2) = specClamp q := by
  unfold specClamp
  split_ifs with h1 h2
  · rw [max_eq_right h1.le]
    exact min_eq_left (by norm_num)
  · rw [max_eq_left (not_lt.mp h1)]
    exact min_eq_right h2.le
  · rw [max_eq_left (not_lt.mp h1)]
    exact min_eq_left (not_lt.mp h2)

theorem specClamp_mem (q : ℚ) : 1/2 ≤ specClamp q ∧ specClamp q ≤ 3/2 := by
  unfold specClamp
  split_ifs with h1 h2
  · constructor <;> norm_num
  · constructor <;> norm_num
  · push_neg at h1 h2
    exact ⟨h1, h2⟩

theorem jsRound_range {x : ℚ} (h1 : 50 ≤ x) (h2 : x ≤ 150) :
    (50 : ℤ) ≤ jsRound x ∧ jsRound x ≤ 150 := by
  unfold jsRound
  constructor
  · rw [Int.le_floor]
    push_cast
    linarith
  · have h : ⌊x + 1/2⌋ < (151 : ℤ) := by
      rw [Int.floor_lt]
      push_cast
      linarith
    omega

theorem rounded_mem {y : ℚ} (hy1 : 1/2 ≤ y) (hy2 : y ≤ 3/2) :
    1/2 ≤ ((jsRound (y * 100) : ℤ) : ℚ) / 100 ∧ ((jsRound (y * 100) : ℤ) : ℚ) / 100 ≤ 3/2 := by
  obtain ⟨hl, hu⟩ := jsRound_range (x := y * 100) (by linarith) (by linarith)
  constructor
  · have h : ((50 : ℤ) : ℚ) ≤ ((jsRound (y * 100) : ℤ) : ℚ) := by exact_mod_cast hl
    have h50 : ((50 : ℤ) : ℚ) = 50 := by norm_num
    linarith [h50 ▸ h]
  · have h : ((jsRound (y * 100) : ℤ) : ℚ) ≤ ((150 : ℤ) : ℚ) := by exact_mod_cast hu
    have h150 : ((150 : ℤ) : ℚ) = 150 := by norm_num
    linarith [h150 ▸ h]

theorem newCapacity_empty_or_nan {rawValue : String}
    (h : jsTrim rawValue = "" ∨ jsNumberOfString rawValue = .nan) :
    newCapacity rawValue = 1 := by
  unfold newCapacity
  rcases h with h | h
  · rw [if_pos h]
  · by_cases htrim : jsTrim rawValue = ""
    · rw [if_pos htrim]
    · rw [if_neg htrim, h]

theorem newCapacity_fin {rawValue : String} {q : ℚ}
    (htrim : jsTrim rawValue ≠ "") (hnum : jsNumberOfString rawValue = .fin q) :
    newCapacity rawValue = specRound2 (specClamp (q / 100)) := by
  unfold newCapacity
  rw [if_neg htrim, hnum]
  show ((jsRound (min (max (q / 100) (1/2)) (3/2) * 100) : ℤ) : ℚ) / 100
      = specRound2 (specClamp (q / 100))
  rw [minmax_eq_specClamp]
  rfl

theorem newCapacity_mem (rawValue : String) :
    1/2 ≤ newCapacity rawValue ∧ newCapacity rawValue ≤ 3/2 := by
  unfold newCapacity
  by_cases htrim : jsTrim rawValue = ""
  · rw [if_pos htrim]
    constructor <;> norm_num
  · rw [if_neg htrim]
    rcases h : jsNumberOfString rawValue with _ | _ | _ | q
    · show (1/2 : ℚ) ≤ 1 ∧ (1 : ℚ) ≤ 3/2
      constructor <;> norm_num
    · show 1/2 ≤ ((jsRound ((3/2 : ℚ) * 100) : ℤ) : ℚ) / 100 ∧
        ((jsRound ((3/2 : ℚ) * 100) : ℤ) : ℚ) / 100 ≤ 3/2
      exact rounded_mem (by norm_num) (le_refl _)
    · show 1/2 ≤ ((jsRound ((1/2 : ℚ) * 100) : ℤ) : ℚ) / 100 ∧
        ((jsRound ((1/2 : ℚ) * 100) : ℤ) : ℚ) / 100 ≤ 3/2
      exact rounded_mem (le_refl _) (by norm_num)
    · have h2 := specClamp_mem (q / 100)
      rw [← minmax_eq_specClamp] at h2
      exact rounded_mem h2.1 h2.2

theorem assignSeq_length (l : List TemplateTask) : ∀ i, (assignSeq i l).length = l.length := by
  induction l with
  | nil => intro i; rfl
  | cons t ts ih =>
      intro i
      simp [assignSeq, ih]

theorem assignSeq_seq (l : List TemplateTask) : ∀ (i : ℕ) (j : Fin (assignSeq i l).length),
    ((assignSeq i l).get j).seqNumber = (i + j.1 + 1) * 10 := by
  induction l with
  | nil =>
      intro i j
      exact absurd j.2 (by simp [assignSeq])
  | cons t ts ih =>
      intro i j
      rcases j with ⟨jv, hj⟩
      cases jv with
      | zero => rfl
      | succ j' =>
          have h' : j' < (assignSeq (i + 1) ts).length := by
            rw [assignSeq_length] at hj ⊢
            simp only [List.length_cons] at hj
            omega
          have step : ((assignSeq i (t :: ts)).get ⟨j' + 1, hj⟩).seqNumber
              = ((assignSeq (i + 1) ts).get ⟨j', h'⟩).seqNumber := rfl
          rw [step, ih (i + 1) ⟨j', h'⟩]
          ring

theorem normalizeSequence_eq (l : List TemplateTask) :
    normalizeSequence l = assignSeq 0 l := by
  unfold normalizeSequence
  apply List.mergeSort_of_sorted
  rw [List.pairwise_iff_get]
  intro i j hij
  simp only [decide_eq_true_eq]
  rw [assignSeq_seq l 0 i, assignSeq_seq l 0 j]
  have : i.1 < j.1 := hij
  omega

theorem seqInvariant_normalizeSequence (l : List TemplateTask) :
    SeqInvariant (normalizeSequence l) := by
  rw [normalizeSequence_eq]
  intro i h
  have := assignSeq_seq l 0 ⟨i, h⟩
  simpa using this

theorem get_set_eq (t : Templates) (k : TemplateKey) (l : List TemplateTask) :
    (t.set k l).get k = l := by
  cases k <;> rfl

theorem get_set_ne (t : Templates) (k k' : TemplateKey) (l : List TemplateTask)
    (h : k' ≠ k) : (t.set k l).get k' = t.get k' := by
  cases k <;> cases k' <;> first | rfl | exact absurd rfl h

theorem seqInvariant_append (l : List TemplateTask) (t : TemplateTask)
    (hl : SeqInvariant l) (ht : t.seqNumber = (l.length + 1) * 10) :
    SeqInvariant (l ++ [t]) := by
  intro i h
  have hlen : i < l.length + 1 := by
    simpa using h
  by_cases hi : i < l.length
  · have step : (l ++ [t]).get ⟨i, h⟩ = l.get ⟨i, hi⟩ := by
      simp only [List.get_eq_getElem]
      exact List.getElem_append_left hi
    rw [step]
    exact hl i hi
  · have hieq : i = l.length := by omega
    have step : (l ++ [t]).get ⟨i, h⟩ = t := by
      simp only [List.get_eq_getElem]
      exact List.getElem_concat_length l t i hieq _
    rw [step, ht, hieq]

theorem findIdx_last_of_nodup : ∀ (l : List TemplateTask) (t : TemplateTask) (i : ℕ),
    (l.map TemplateTask.id).Nodup → l.getLast? = some t →
    List.findIdx? (fun task => task.id == t.id) l i = some (i + (l.length - 1)) := by
  intro l
  induction l with
  | nil =>
      intro t i _ h
      cases h
  | cons a l' ih =>
      intro t i hnodup hlast
      cases l' with
      | nil =>
          have hta : t = a := by
            have h := hlast
            simp only [List.getLast?_singleton, Option.some.injEq] at h
            exact h.symm
          subst hta
          rw [List.findIdx?_cons, if_pos (by simp)]
          simp
      | cons b l'' =>
          have hlast' : (b :: l'').getLast? = some t := by
            rwa [List.getLast?_cons_cons] at hlast
          have hmem : t ∈ b :: l'' := List.mem_of_mem_getLast? hlast'
          rw [List.map_cons, List.nodup_cons] at hnodup
          have hne : a.id ≠ t.id := by
            intro hcontra
            exact hnodup.1 (hcontra ▸ List.mem_map_of_mem TemplateTask.id hmem)
          rw [List.findIdx?_cons, if_neg (by simp [hne])]
          rw [ih t (i + 1) hnodup.2 hlast']
          simp only [Option.some.injEq, List.length_cons]
          omega

theorem normId_eq_specId (fresh : String) (idv : JsValue) :
    normId fresh idv = specId fresh idv := by
  cases idv with
  | str s =>
      unfold normId specId
      by_cases hs : s = ""
      · subst hs
        rfl
      · by_cases ht : jsTrim s = ""
        · simp [truthy, isStringVal, hs, ht]
        · simp [truthy, isStringVal, hs, ht]
  | null => rfl
  | undefinedVal => rfl
  | bool b =>
      unfold normId specId
      simp [isStringVal]
  | num n =>
      unfold normId specId
      simp [isStringVal]
  | arr xs => rfl
  | obj fs => rfl

theorem normCapOne_eq_spec (fresh : String) (v : JsValue) :
    normCapOne fresh v = specNormCap fresh v := by
  unfold normCapOne specNormCap
  rw [normId_eq_specId]
  rfl

theorem contains_eq_mem_decide (validIds : List String) (s : String) :
    validIds.contains s = decide (s ∈ validIds) := by
  show validIds.elem s = decide (s ∈ validIds)
  by_cases h : s ∈ validIds
  · rw [List.elem_eq_true_of_mem h, decide_eq_true h]
  · rw [decide_eq_false h]
    by_contra hcon
    rw [Bool.not_eq_false] at hcon
    exact h (List.mem_of_elem_eq_true hcon)

theorem normStaffOne_eq_spec (fresh : String) (validIds : List String) (v : JsValue) :
    normStaffOne fresh validIds v = specNormStaff fresh validIds v := by
  unfold normStaffOne specNormStaff
  rw [normId_eq_specId, minmax_eq_specClamp]
  rcases hf : v.getField "capabilityIds" with _ | _ | _ | _ | _ | xs | _ <;> try rfl
  have harg : (fun x : JsValue =>
        match x with
        | .str s => if validIds.contains s then some s else none
        | _ => none)
      = (fun x : JsValue =>
        match x with
        | .str s => if s ∈ validIds then some s else none
        | _ => none) := by
    funext x
    rcases x with _ | _ | _ | _ | s | _ | _ <;> try rfl
    show (if validIds.contains s then some s else none)
        = (if s ∈ validIds then some s else none)
    by_cases h : s ∈ validIds
    · rw [if_pos (by rw [contains_eq_mem_decide, decide_eq_true h]), if_pos h]
    · rw [if_neg (by rw [contains_eq_mem_decide, decide_eq_false h]; exact Bool.false_ne_true),
        if_neg h]
  rw [harg]
  rfl

theorem normCaps_length (fresh : Nat → String) : ∀ (i : ℕ) (l : List JsValue),
    (normCaps fresh i l).length = l.length := by
  intro i l
  induction l generalizing i with
  | nil => rfl
  | cons v rest ih => simp [normCaps, ih]

theorem normCaps_get (fresh : Nat → String) :
    ∀ (l : List JsValue) (i : ℕ) (j : ℕ) (h : j < (normCaps fresh i l).length)
      (h' : j < l.length),
    (normCaps fresh i l).get ⟨j, h⟩ = normCapOne (fresh (i + j)) (l.get ⟨j, h'⟩) := by
  intro l
  induction l with
  | nil =>
      intro i j h h'
      simp [normCaps] at h
  | cons v rest ih =>
      intro i j h h'
      cases j with
      | zero => rfl
      | succ j' =>
          have hr : j' < (normCaps fresh (i + 1) rest).length := by
            rw [normCaps_length]
            rw [normCaps_length] at h
            simpa using h
          have hr' : j' < rest.length := by
            simpa using h'
          have step : (normCaps fresh i (v :: rest)).get ⟨j' + 1, h⟩
              = (normCaps fresh (i + 1) rest).get ⟨j', hr⟩ := rfl
          rw [step, ih (i + 1) j' hr hr']
          congr 2
          omega

theorem normStaffs_length (fresh : Nat → String) (validIds : List String) :
    ∀ (i : ℕ) (l : List JsValue), (normStaffs fresh validIds i l).length = l.length := by
  intro i l
  induction l generalizing i with
  | nil => rfl
  | cons v rest ih => simp [normStaffs, ih]

theorem normStaffs_get (fresh : Nat → String) (validIds : List String) :
    ∀ (l : List JsValue) (i : ℕ) (j : ℕ) (h : j < (normStaffs fresh validIds i l).length)
      (h' : j < l.length),
    (normStaffs fresh validIds i l).get ⟨j, h⟩
      = normStaffOne (fresh (i + j)) validIds (l.get ⟨j, h'⟩) := by
  intro l
  induction l with
  | nil =>
      intro i j h h'
      simp [normStaffs] at h
  | cons v rest ih =>
      intro i j h h'
      cases j with
      | zero => rfl
      | succ j' =>
          have hr : j' < (normStaffs fresh validIds (i + 1) rest).length := by
            rw [normStaffs_length]
            rw [normStaffs_length] at h
            simpa using h
          have hr' : j' < rest.length := by
            simpa using h'
          have step : (normStaffs fresh validIds i (v :: rest)).get ⟨j' + 1, h⟩
              = (normStaffs fresh validIds (i + 1) rest).get ⟨j', hr⟩ := rfl
          rw [step, ih (i + 1) j' hr hr']
          congr 2
          omega

theorem normCapOne_nonobject {v : JsValue} (h : isObjectLiteral v = false) (fresh : String) :
    normCapOne fresh v = ⟨fresh, "", ""⟩ := by
  cases v <;> first | rfl | exact absurd h (by simp [isObjectLiteral])

theorem normStaffOne_nonobject {v : JsValue} (h : isObjectLiteral v = false)
    (fresh : String) (validIds : List String) :
    normStaffOne fresh validIds v = ⟨fresh, "", "", 1, []⟩ := by
  have hcap : min (max (1 : ℚ) (1/2)) (3/2) = 1 := by
    rw [max_eq_left (by norm_num), min_eq_left (by norm_num)]
  cases v with
  | obj fs => exact absurd h (by simp [isObjectLiteral])
  | null => show StaffMember.mk fresh "" "" (min (max 1 (1/2)) (3/2)) [] = _; rw [hcap]
  | undefinedVal => show StaffMember.mk fresh "" "" (min (max 1 (1/2)) (3/2)) [] = _; rw [hcap]
  | bool b => show StaffMember.mk fresh "" "" (min (max 1 (1/2)) (3/2)) [] = _; rw [hcap]
  | num n =>
      rcases n with _ | _ | _ | q <;>
        · show StaffMember.mk fresh "" "" (min (max 1 (1/2)) (3/2)) [] = _
          rw [hcap]
  | str s => show StaffMember.mk fresh "" "" (min (max 1 (1/2)) (3/2)) [] = _; rw [hcap]
  | arr xs => show StaffMember.mk fresh "" "" (min (max 1 (1/2)) (3/2)) [] = _; rw [hcap]

theorem dropWhile_eq_self_of_all {p : Char → Bool} {l : List Char}
    (h : ∀ c ∈ l, p c = false) : l.dropWhile p = l := by
  cases l with
  | nil => rfl
  | cons a as =>
      rw [List.dropWhile_cons]
      simp [h a (List.mem_cons_self a as)]

theorem jsTrim_of_wsFree {s : String} (h : WsFree s) : jsTrim s = s := by
  unfold jsTrim trimChars
  rw [dropWhile_eq_self_of_all h,
    dropWhile_eq_self_of_all (fun c hc => h c (List.mem_reverse.mp hc)),
    List.reverse_reverse]

theorem normCapOne_export (fresh : String) (c : Capability) (hid : c.id ≠ "")
    (hws : WsFree c.id) : normCapOne fresh (capabilityToJs c) = c := by
  have hnorm : normId fresh (.str c.id) = c.id := by
    unfold normId
    simp [truthy, isStringVal, hid, jsTrim_of_wsFree hws]
  show Capability.mk (normId fresh (.str c.id)) c.code c.description = c
  rw [hnorm]

theorem filterMap_contains_eq_self (validIds : List String) : ∀ (ids : List String),
    (∀ s ∈ ids, s ∈ validIds) →
    (ids.filterMap fun s => if validIds.contains s then some s else none) = ids := by
  intro ids
  induction ids with
  | nil => intro _; rfl
  | cons a as ih =>
      intro h
      have hca : validIds.contains a = true :=
        List.elem_eq_true_of_mem (h a (List.mem_cons_self a as))
      have hfa : (fun s => if validIds.contains s then some s else none) a = some a := by
        show (if validIds.contains a = true then some a else none) = some a
        rw [if_pos hca]
      simp only [List.filterMap_cons, hfa]
      rw [ih (fun s hs => h s (List.mem_cons_of_mem a hs))]

theorem normStaffOne_export (fresh : String) (validIds : List String) (m : StaffMember)
    (hid : m.id ≠ "") (hws : WsFree m.id) (h1 : 1/2 ≤ m.capacity) (h2 : m.capacity ≤ 3/2)
    (hsub : ∀ s ∈ m.capabilityIds, s ∈ validIds) :
    normStaffOne fresh validIds (staffMemberToJs m) = m := by
  have hnorm : normId fresh (.str m.id) = m.id := by
    unfold normId
    simp [truthy, isStringVal, hid, jsTrim_of_wsFree hws]
  have hcap : min (max m.capacity (1/2)) (3/2) = m.capacity := by
    rw [max_eq_left h1, min_eq_left h2]
  have hids : ((m.capabilityIds.map JsValue.str).filterMap fun x =>
      match x with
      | JsValue.str s => if validIds.contains s then some s else none
      | _ => none) = m.capabilityIds := by
    rw [List.filterMap_map]
    exact filterMap_contains_eq_self validIds m.capabilityIds hsub
  show StaffMember.mk (normId fresh (.str m.id)) m.code m.name
      (min (max m.capacity (1/2)) (3/2))
      ((m.capabilityIds.map JsValue.str).filterMap fun x =>
        match x with
        | JsValue.str s => if validIds.contains s then some s else none
        | _ => none) = m
  rw [hnorm, hcap, hids]

theorem normCaps_export (fresh : Nat → String) :
    ∀ (caps : List Capability), (∀ c ∈ caps, c.id ≠ "" ∧ WsFree c.id) →
    ∀ i, normCaps fresh i (caps.map capabilityToJs) = caps := by
  intro caps
  induction caps with
  | nil => intro _ i; rfl
  | cons c cs ih =>
      intro h i
      have hc := h c (List.mem_cons_self c cs)
      show normCapOne (fresh i) (capabilityToJs c)
          :: normCaps fresh (i + 1) (cs.map capabilityToJs) = c :: cs
      rw [normCapOne_export (fresh i) c hc.1 hc.2,
        ih (fun x hx => h x (List.mem_cons_of_mem c hx)) (i + 1)]

theorem normStaffs_export (fresh : Nat → String) (validIds : List String) :
    ∀ (staff : List StaffMember),
    (∀ m ∈ staff, m.id ≠ "" ∧ WsFree m.id ∧ 1/2 ≤ m.capacity ∧ m.capacity ≤ 3/2 ∧
      (∀ cid ∈ m.capabilityIds, cid ∈ validIds)) →
    ∀ i, normStaffs fresh validIds i (staff.map staffMemberToJs) = staff := by
  intro staff
  induction staff with
  | nil => intro _ i; rfl
  | cons m ms ih =>
      intro h i
      have hm := h m (List.mem_cons_self m ms)
      show normStaffOne (fresh i) validIds (staffMemberToJs m)
          :: normStaffs fresh validIds (i + 1) (ms.map staffMemberToJs) = m :: ms
      rw [normStaffOne_export (fresh i) validIds m hm.1 hm.2.1 hm.2.2.1 hm.2.2.2.1 hm.2.2.2.2,
        ih (fun x hx => h x (List.mem_cons_of_mem m hx)) (i + 1)]

/-! ## Claims -/

/-- C7: `addCapability` appends a capability whose code is `C` followed by
`1 + max(numeric suffixes of existing codes, default 0)` (the suffix being the
digits of the code, `none` when there are no digits); codes `["C1","C3"]`
give `"C4"`; the same rule with prefix `S` governs `addStaffMember`. -/
theorem c7_next_code_suffix :
    (∀ caps : List Capability, getNextCapabilityCode caps =
        "C" ++ toString (1 + (((caps.filterMap fun c => numericSuffix c.code).max?).getD 0))) ∧
    (∀ (fresh : String) (caps : List Capability),
        (handleAddCapability fresh caps).map Capability.code =
          caps.map Capability.code ++ [getNextCapabilityCode caps]) ∧
    getNextCapabilityCode [⟨"i1", "C1", "d1"⟩, ⟨"i2", "C3", "d2"⟩] = "C4" ∧
    (∀ staff : List StaffMember, getNextStaffCode staff =
        "S" ++ toString (1 + (((staff.filterMap fun m => numericSuffix m.code).max?).getD 0))) ∧
    (∀ (fresh : String) (staff : List StaffMember),
        (handleAddStaffMember fresh staff).map StaffMember.code =
          staff.map StaffMember.code ++ [getNextStaffCode staff]) := by
  refine ⟨?_, ?_, ?_, ?_, ?_⟩
  · intro caps
    exact congrArg (fun n => "C" ++ toString n)
      (nextNumber_spec (caps.filterMap fun c => numericSuffix c.code))
  · intro fresh caps
    simp [handleAddCapability]
  · rfl
  · intro staff
    exact congrArg (fun n => "S" ++ toString n)
      (nextNumber_spec (staff.filterMap fun m => numericSuffix m.code))
  · intro fresh staff
    simp [handleAddStaffMember]

/-- C3: deleting a capability removes every capability with that id (keeping
the others, in order) and prunes the id from every staff member's
`capabilityIds`, leaving every other staff field untouched and no staff
member referencing the deleted id. -/
theorem c3_delete_capability_cascade (cid : String) (st : TeamSetupData) :
    List.Sublist (handleDeleteCapability cid st).capabilities st.capabilities ∧
    (∀ c ∈ (handleDeleteCapability cid st).capabilities, c.id ≠ cid) ∧
    (∀ c ∈ st.capabilities, c.id ≠ cid → c ∈ (handleDeleteCapability cid st).capabilities) ∧
    (handleDeleteCapability cid st).staffMembers.length = st.staffMembers.length ∧
    (∀ i (h : i < st.staffMembers.length)
        (h' : i < (handleDeleteCapability cid st).staffMembers.length),
      ((handleDeleteCapability cid st).staffMembers.get ⟨i, h'⟩).id
          = (st.staffMembers.get ⟨i, h⟩).id ∧
      ((handleDeleteCapability cid st).staffMembers.get ⟨i, h'⟩).code
          = (st.staffMembers.get ⟨i, h⟩).code ∧
      ((handleDeleteCapability cid st).staffMembers.get ⟨i, h'⟩).name
          = (st.staffMembers.get ⟨i, h⟩).name ∧
      ((handleDeleteCapability cid st).staffMembers.get ⟨i, h'⟩).capacity
          = (st.staffMembers.get ⟨i, h⟩).capacity ∧
      ((handleDeleteCapability cid st).staffMembers.get ⟨i, h'⟩).capabilityIds
          = (st.staffMembers.get ⟨i, h⟩).capabilityIds.filter (fun x => x != cid)) ∧
    (∀ m ∈ (handleDeleteCapability cid st).staffMembers, cid ∉ m.capabilityIds) := by
  refine ⟨List.filter_sublist _, ?_, ?_, by simp [handleDeleteCapability], ?_, ?_⟩
  · intro c hc
    have h := (List.mem_filter.mp hc).2
    simpa using h
  · intro c hc hne
    exact List.mem_filter.mpr ⟨hc, by simpa using hne⟩
  · intro i h h'
    refine ⟨?_, ?_, ?_, ?_, ?_⟩ <;>
      simp [handleDeleteCapability]
  · intro m hm
    obtain ⟨m0, _, rfl⟩ := List.mem_map.mp hm
    intro hmem
    have h := (List.mem_filter.mp hmem).2
    simp at h

theorem c3_delete_capability_cascade_witness :
    (⟨"y", "C2", "e"⟩ : Capability) ∈
      (handleDeleteCapability "x"
        ⟨[⟨"x", "C1", "d"⟩, ⟨"y", "C2", "e"⟩], [⟨"s", "S1", "n", 1, ["x", "y"]⟩]⟩).capabilities :=
  (c3_delete_capability_cascade "x"
      ⟨[⟨"x", "C1", "d"⟩, ⟨"y", "C2", "e"⟩], [⟨"s", "S1", "n", 1, ["x", "y"]⟩]⟩).2.2.1
    ⟨"y", "C2", "e"⟩ (by decide) (by decide)

/-- C5: a capacity edit leaves other staff members untouched; for the edited
member a trim-empty or non-numeric input stores `1`, a numeric input stores
the value divided by 100, clamped to `[0.5, 1.5]` and rounded to two decimal
places, and every stored value lies in `[0.5, 1.5]`; concretely `"150"`
stores `1.5` and `"40"` stores `0.5`. -/
theorem c5_capacity_clamped (staffId rawValue : String) (prev : List StaffMember) :
    (handleStaffCapacityChange staffId rawValue prev).length = prev.length ∧
    (∀ i (h : i < prev.length)
        (h' : i < (handleStaffCapacityChange staffId rawValue prev).length),
      (prev.get ⟨i, h⟩).id ≠ staffId →
        (handleStaffCapacityChange staffId rawValue prev).get ⟨i, h'⟩ = prev.get ⟨i, h⟩) ∧
    (∀ i (h : i < prev.length)
        (h' : i < (handleStaffCapacityChange staffId rawValue prev).length),
      (prev.get ⟨i, h⟩).id = staffId →
        (1/2 ≤ ((handleStaffCapacityChange staffId rawValue prev).get ⟨i, h'⟩).capacity ∧
          ((handleStaffCapacityChange staffId rawValue prev).get ⟨i, h'⟩).capacity ≤ 3/2) ∧
        ((jsTrim rawValue = "" ∨ jsNumberOfString rawValue = .nan) →
          ((handleStaffCapacityChange staffId rawValue prev).get ⟨i, h'⟩).capacity = 1) ∧
        (∀ q : ℚ, jsTrim rawValue ≠ "" → jsNumberOfString rawValue = .fin q →
          ((handleStaffCapacityChange staffId rawValue prev).get ⟨i, h'⟩).capacity
            = specRound2 (specClamp (q / 100)))) ∧
    (handleStaffCapacityChange "s1" "150" [⟨"s1", "S1", "Ann", 1, []⟩]).map StaffMember.capacity
      = [3/2] ∧
    (handleStaffCapacityChange "s1" "40" [⟨"s1", "S1", "Ann", 1, []⟩]).map StaffMember.capacity
      = [1/2] := by
  have h150 : jsNumberOfString "150" = .fin ((150 : ℕ) : ℚ) := rfl
  have h40 : jsNumberOfString "40" = .fin ((40 : ℕ) : ℚ) := rfl
  have hcl150 : specClamp (((150 : ℕ) : ℚ) / 100) = 3/2 := by
    unfold specClamp
    push_cast
    rw [if_neg (by norm_num), if_neg (by norm_num)]
    norm_num
  have hcl40 : specClamp (((40 : ℕ) : ℚ) / 100) = 1/2 := by
    unfold specClamp
    push_cast
    rw [if_pos (by norm_num)]
  have hrd150 : specRound2 (3/2 : ℚ) = 3/2 := by
    unfold specRound2
    rw [show (3/2 : ℚ) * 100 + 1/2 = 301/2 by norm_num]
    have hf : ⌊(301/2 : ℚ)⌋ = (150 : ℤ) := by norm_num [Int.floor_eq_iff]
    rw [hf]
    norm_num
  have hrd40 : specRound2 (1/2 : ℚ) = 1/2 := by
    unfold specRound2
    rw [show (1/2 : ℚ) * 100 + 1/2 = 101/2 by norm_num]
    have hf : ⌊(101/2 : ℚ)⌋ = (50 : ℤ) := by norm_num [Int.floor_eq_iff]
    rw [hf]
    norm_num
  refine ⟨by simp [handleStaffCapacityChange], ?_, ?_, ?_, ?_⟩
  · intro i h h' hne
    simp only [List.get_eq_getElem] at hne ⊢
    simp only [handleStaffCapacityChange, List.getElem_map]
    rw [if_pos hne]
  · intro i h h' heq
    simp only [List.get_eq_getElem] at heq ⊢
    simp only [handleStaffCapacityChange, List.getElem_map]
    rw [if_neg (not_not_intro heq)]
    exact ⟨newCapacity_mem rawValue,
      fun hcase => newCapacity_empty_or_nan hcase,
      fun q htr hq => newCapacity_fin htr hq⟩
  · simp only [handleStaffCapacityChange, List.map_cons, List.map_nil]
    rw [if_neg (by decide)]
    show [newCapacity "150"] = [3/2]
    rw [newCapacity_fin (by decide) h150, hcl150, hrd150]
  · simp only [handleStaffCapacityChange, List.map_cons, List.map_nil]
    rw [if_neg (by decide)]
    show [newCapacity "40"] = [1/2]
    rw [newCapacity_fin (by decide) h40, hcl40, hrd40]

/-- C4: after any task-list operation (add, edit, move, delete) the
`seqNumber` values of every template are exactly `10, 20, 30, …` in list
order, provided the invariant held beforehand (add appends
`(length+1)*10` without re-sequencing; the other operations re-sequence). -/
theorem c4_seq_numbers_invariant (fresh : String) (caps : List Capability)
    (templates : Templates) (key : TemplateKey) (taskId value : String)
    (fld : TaskField) (dir : MoveDir)
    (hinv : ∀ k, SeqInvariant (templates.get k)) :
    (∀ k, SeqInvariant ((handleAddTask fresh caps key templates).get k)) ∧
    (∀ k, SeqInvariant ((handleTaskChange key taskId fld value templates).get k)) ∧
    (∀ k, SeqInvariant ((handleMoveTask key taskId dir templates).get k)) ∧
    (∀ k, SeqInvariant ((handleDeleteTask key taskId templates).get k)) := by
  refine ⟨?_, ?_, ?_, ?_⟩
  · intro k
    by_cases hk : k = key
    · subst hk
      simp only [handleAddTask, get_set_eq]
      exact seqInvariant_append _ _ (hinv k) rfl
    · simp only [handleAddTask]
      rw [get_set_ne _ _ _ _ hk]
      exact hinv k
  · intro k
    by_cases hk : k = key
    · subst hk
      simp only [handleTaskChange, get_set_eq]
      exact seqInvariant_normalizeSequence _
    · simp only [handleTaskChange]
      rw [get_set_ne _ _ _ _ hk]
      exact hinv k
  · intro k
    rcases hfind : (templates.get key).findIdx? (fun task => task.id == taskId) with _ | idx
    · simp only [handleMoveTask, hfind]
      exact hinv k
    · cases dir with
      | up =>
          by_cases hidx : idx = 0
          · simp only [handleMoveTask, hfind, hidx, if_pos rfl]
            exact hinv k
          · simp only [handleMoveTask, hfind, if_neg hidx]
            by_cases hk : k = key
            · subst hk
              rw [get_set_eq]
              exact seqInvariant_normalizeSequence _
            · rw [get_set_ne _ _ _ _ hk]
              exact hinv k
      | down =>
          by_cases hidx : idx + 1 ≥ (templates.get key).length
          · simp only [handleMoveTask, hfind, if_pos hidx]
            exact hinv k
          · simp only [handleMoveTask, hfind, if_neg hidx]
            by_cases hk : k = key
            · subst hk
              rw [get_set_eq]
              exact seqInvariant_normalizeSequence _
            · rw [get_set_ne _ _ _ _ hk]
              exact hinv k
  · intro k
    by_cases hk : k = key
    · subst hk
      simp only [handleDeleteTask, get_set_eq]
      exact seqInvariant_normalizeSequence _
    · simp only [handleDeleteTask]
      rw [get_set_ne _ _ _ _ hk]
      exact hinv k

theorem c4_seq_numbers_invariant_witness :
    SeqInvariant ((handleAddTask "f" [] TemplateKey.enhancement
      ⟨[], [], []⟩).get TemplateKey.enhancement) :=
  (c4_seq_numbers_invariant "f" [] ⟨[], [], []⟩ TemplateKey.enhancement "t" "v"
      TaskField.task MoveDir.up
      (fun k => by cases k <;> intro i h <;> simp [Templates.get] at h)).1
    TemplateKey.enhancement

/-- C9 counterexample: in a template whose last task shares its id with the
first task, moving the last task down is not a no-op — `handleMoveTask`
locates the first task with that id and swaps it downward. -/
theorem c9_move_last_down_counterexample :
    (dupIdTemplates.get TemplateKey.enhancement).getLast?.map TemplateTask.id = some "a" ∧
    handleMoveTask TemplateKey.enhancement "a" MoveDir.down dupIdTemplates ≠ dupIdTemplates := by
  refine ⟨rfl, ?_⟩
  have hmove : handleMoveTask TemplateKey.enhancement "a" MoveDir.down dupIdTemplates
      = dupIdTemplates.set TemplateKey.enhancement
          (normalizeSequence (swapIdx dupIdTemplates.enhancement 0 1)) := rfl
  rw [hmove, normalizeSequence_eq]
  decide

/-- C9 (amended): moving the first task up is a no-op, and moving the last
task down is a no-op provided the template's task ids are pairwise distinct
(as generated ids are); in both cases the whole templates state is returned
unchanged. -/
theorem c9_boundary_moves_amended :
    (∀ (templates : Templates) (key : TemplateKey) (t : TemplateTask)
        (rest : List TemplateTask),
      templates.get key = t :: rest →
      handleMoveTask key t.id MoveDir.up templates = templates) ∧
    (∀ (templates : Templates) (key : TemplateKey) (t : TemplateTask),
      ((templates.get key).map TemplateTask.id).Nodup →
      (templates.get key).getLast? = some t →
      handleMoveTask key t.id MoveDir.down templates = templates) := by
  constructor
  · intro templates key t rest hget
    simp only [handleMoveTask, hget]
    rw [List.findIdx?_cons, if_pos (by simp)]
    rfl
  · intro templates key t hnodup hlast
    have hne : templates.get key ≠ [] := by
      intro hcon
      rw [hcon] at hlast
      cases hlast
    have hlen : 1 ≤ (templates.get key).length :=
      List.length_pos.mpr hne
    have hidx := findIdx_last_of_nodup (templates.get key) t 0 hnodup hlast
    simp only [handleMoveTask, hidx]
    rw [if_pos (by omega)]

theorem c9_boundary_moves_amended_witness :
    handleMoveTask TemplateKey.enhancement "a" MoveDir.up
        (⟨[⟨"a", 10, "t1", "", ""⟩, ⟨"b", 20, "t2", "", ""⟩], [], []⟩ : Templates)
      = ⟨[⟨"a", 10, "t1", "", ""⟩, ⟨"b", 20, "t2", "", ""⟩], [], []⟩ :=
  c9_boundary_moves_amended.1
    ⟨[⟨"a", 10, "t1", "", ""⟩, ⟨"b", 20, "t2", "", ""⟩], [], []⟩
    TemplateKey.enhancement ⟨"a", 10, "t1", "", ""⟩ [⟨"b", 20, "t2", "", ""⟩] rfl

/-- C6: on import, a JSON parse failure or a normalization rejection reports
an error and leaves both collections unchanged; a successful normalization
replaces both collections wholesale and reports success; in particular the
payload `{"capabilities":"not-an-array","staffMembers":[]}` is rejected and
leaves state unchanged. -/
theorem c6_load_failure_keeps_state (fresh : Nat → String) (prev : TeamSetupData) :
    handleLoadTeam fresh none prev = (prev, LoadFeedback.error) ∧
    (∀ v, normalizeTeamSetupData fresh v = none →
      handleLoadTeam fresh (some v) prev = (prev, LoadFeedback.error)) ∧
    (∀ v d, normalizeTeamSetupData fresh v = some d →
      handleLoadTeam fresh (some v) prev
        = ({ capabilities := d.capabilities, staffMembers := d.staffMembers },
            LoadFeedback.success)) ∧
    normalizeTeamSetupData fresh badShapeInput = none ∧
    handleLoadTeam fresh (some badShapeInput) prev = (prev, LoadFeedback.error) := by
  have hbad : normalizeTeamSetupData fresh badShapeInput = none := rfl
  refine ⟨rfl, ?_, ?_, hbad, ?_⟩
  · intro v hv
    simp [handleLoadTeam, hv]
  · intro v d hv
    simp [handleLoadTeam, hv]
  · simp [handleLoadTeam, hbad]

theorem c6_load_failure_keeps_state_witness :
    handleLoadTeam gen0 (some badShapeInput) ⟨[], []⟩
      = (⟨[], []⟩, LoadFeedback.error) :=
  (c6_load_failure_keeps_state gen0 ⟨[], []⟩).2.1 badShapeInput rfl

/-- C1 counterexample: a capability whose `id` field is the non-empty string
`"   "` does not keep that id — normalization assigns a generated id (the
code keeps only ids whose trim is non-empty, and keeps them trimmed). -/
theorem c1_normalize_id_counterexample :
    (normalizeTeamSetupData gen0 wsIdInput).map (fun d => d.capabilities.map Capability.id)
      = some ["gen0"] ∧ ("gen0" : String) ≠ "   " :=
  ⟨rfl, by decide⟩

/-- C1 (amended): `normalizeTeamSetupData` returns `null` exactly when the
input is not an object with array-typed `capabilities` and `staffMembers`
fields; otherwise it succeeds and every output entry is the spec's
normalization of the same-position input entry: ids are kept trimmed when
they are strings with non-empty trim (else a generated id), `code`,
`description` and `name` default to `""` when not strings, capacity defaults
to 1 when not a finite number and is clamped to `[0.5, 1.5]`, and
`capabilityIds` defaults to `[]` and keeps exactly the entries present in
the normalized capability id set. -/
theorem c1_normalize_amended (fresh : Nat → String) (raw : JsValue) :
    (normalizeTeamSetupData fresh raw = none ↔ specShape raw = false) ∧
    (∀ (capsArr staffArr : List JsValue),
      raw.getField "capabilities" = .arr capsArr →
      raw.getField "staffMembers" = .arr staffArr →
      ∃ d, normalizeTeamSetupData fresh raw = some d ∧
        d.capabilities.length = capsArr.length ∧
        d.staffMembers.length = staffArr.length ∧
        (∀ (j : ℕ) (h : j < capsArr.length) (h' : j < d.capabilities.length),
          d.capabilities.get ⟨j, h'⟩ = specNormCap (fresh j) (capsArr.get ⟨j, h⟩)) ∧
        (∀ (j : ℕ) (h : j < staffArr.length) (h' : j < d.staffMembers.length),
          d.staffMembers.get ⟨j, h'⟩
            = specNormStaff (fresh (capsArr.length + j))
                (d.capabilities.map Capability.id) (staffArr.get ⟨j, h⟩))) := by
  constructor
  · cases raw with
    | obj fs =>
        rcases hc : (JsValue.obj fs).getField "capabilities"
            with _ | _ | _ | _ | _ | xs | _ <;>
          rcases hs : (JsValue.obj fs).getField "staffMembers"
              with _ | _ | _ | _ | _ | ys | _ <;>
            simp [normalizeTeamSetupData, specShape, isArrayVal, truthy, isObjectTyped, hc, hs]
    | null => simp [normalizeTeamSetupData, specShape, truthy, isObjectTyped]
    | undefinedVal => simp [normalizeTeamSetupData, specShape, truthy, isObjectTyped]
    | bool b => simp [normalizeTeamSetupData, specShape, truthy, isObjectTyped]
    | num n => simp [normalizeTeamSetupData, specShape, truthy, isObjectTyped]
    | str s => simp [normalizeTeamSetupData, specShape, truthy, isObjectTyped]
    | arr xs => simp [normalizeTeamSetupData, specShape, truthy, isObjectTyped, JsValue.getField]
  · intro capsArr staffArr hc hs
    cases raw with
    | null => simp [JsValue.getField] at hc
    | undefinedVal => simp [JsValue.getField] at hc
    | bool b => simp [JsValue.getField] at hc
    | num n => simp [JsValue.getField] at hc
    | str s => simp [JsValue.getField] at hc
    | arr xs => simp [JsValue.getField] at hc
    | obj fs =>
        refine ⟨⟨normCaps fresh 0 capsArr,
          normStaffs fresh ((normCaps fresh 0 capsArr).map Capability.id)
            capsArr.length staffArr⟩, ?_, ?_, ?_, ?_, ?_⟩
        · unfold normalizeTeamSetupData
          rw [hc, hs]
          rfl
        · exact normCaps_length fresh 0 capsArr
        · exact normStaffs_length fresh _ capsArr.length staffArr
        · intro j h h'
          have step := normCaps_get fresh capsArr 0 j h' h
          rw [Nat.zero_add] at step
          rw [step, normCapOne_eq_spec]
        · intro j h h'
          rw [normStaffs_get fresh _ staffArr capsArr.length j h' h, normStaffOne_eq_spec]

theorem c1_normalize_amended_witness :
    ∃ d, normalizeTeamSetupData gen0 nonObjectEntriesInput = some d ∧
      d.capabilities.length = ([JsValue.null] : List JsValue).length ∧
      d.staffMembers.length = ([JsValue.num .nan] : List JsValue).length ∧
      (∀ (j : ℕ) (h : j < ([JsValue.null] : List JsValue).length)
          (h' : j < d.capabilities.length),
        d.capabilities.get ⟨j, h'⟩
          = specNormCap (gen0 j) (([JsValue.null] : List JsValue).get ⟨j, h⟩)) ∧
      (∀ (j : ℕ) (h : j < ([JsValue.num .nan] : List JsValue).length)
          (h' : j < d.staffMembers.length),
        d.staffMembers.get ⟨j, h'⟩
          = specNormStaff (gen0 (([JsValue.null] : List JsValue).length + j))
              (d.capabilities.map Capability.id)
              (([JsValue.num .nan] : List JsValue).get ⟨j, h⟩)) :=
  (c1_normalize_amended gen0 nonObjectEntriesInput).2 [JsValue.null] [JsValue.num .nan] rfl rfl

/-- C10: on any object input with array `capabilities` and `staffMembers`,
normalization succeeds with exactly one output entry per input entry in the
same order (each output entry is the per-element normalization of the
same-position input entry), and entries that are not objects at all become
fully-defaulted records with a generated id. -/
theorem c10_normalize_entrywise (fresh : Nat → String) (raw : JsValue)
    (capsArr staffArr : List JsValue)
    (hc : raw.getField "capabilities" = .arr capsArr)
    (hs : raw.getField "staffMembers" = .arr staffArr) :
    ∃ d, normalizeTeamSetupData fresh raw = some d ∧
      d.capabilities.length = capsArr.length ∧
      d.staffMembers.length = staffArr.length ∧
      (∀ (j : ℕ) (h : j < capsArr.length) (h' : j < d.capabilities.length),
        d.capabilities.get ⟨j, h'⟩ = normCapOne (fresh j) (capsArr.get ⟨j, h⟩)) ∧
      (∀ (j : ℕ) (h : j < staffArr.length) (h' : j < d.staffMembers.length),
        d.staffMembers.get ⟨j, h'⟩
          = normStaffOne (fresh (capsArr.length + j))
              (d.capabilities.map Capability.id) (staffArr.get ⟨j, h⟩)) ∧
      (∀ (j : ℕ) (h : j < capsArr.length) (h' : j < d.capabilities.length),
        isObjectLiteral (capsArr.get ⟨j, h⟩) = false →
          d.capabilities.get ⟨j, h'⟩ = ⟨fresh j, "", ""⟩) ∧
      (∀ (j : ℕ) (h : j < staffArr.length) (h' : j < d.staffMembers.length),
        isObjectLiteral (staffArr.get ⟨j, h⟩) = false →
          d.staffMembers.get ⟨j, h'⟩ = ⟨fresh (capsArr.length + j), "", "", 1, []⟩) := by
  cases raw with
  | null => simp [JsValue.getField] at hc
  | undefinedVal => simp [JsValue.getField] at hc
  | bool b => simp [JsValue.getField] at hc
  | num n => simp [JsValue.getField] at hc
  | str s => simp [JsValue.getField] at hc
  | arr xs => simp [JsValue.getField] at hc
  | obj fs =>
      refine ⟨⟨normCaps fresh 0 capsArr,
        normStaffs fresh ((normCaps fresh 0 capsArr).map Capability.id)
          capsArr.length staffArr⟩, ?_, ?_, ?_, ?_, ?_, ?_, ?_⟩
      · unfold normalizeTeamSetupData
        rw [hc, hs]
        rfl
      · exact normCaps_length fresh 0 capsArr
      · exact normStaffs_length fresh _ capsArr.length staffArr
      · intro j h h'
        have step := normCaps_get fresh capsArr 0 j h' h
        rw [Nat.zero_add] at step
        exact step
      · intro j h h'
        exact normStaffs_get fresh _ staffArr capsArr.length j h' h
      · intro j h h' hno
        have step := normCaps_get fresh capsArr 0 j h' h
        rw [Nat.zero_add] at step
        rw [step, normCapOne_nonobject hno]
      · intro j h h' hno
        rw [normStaffs_get fresh _ staffArr capsArr.length j h' h,
          normStaffOne_nonobject hno]

theorem c10_normalize_entrywise_witness :
    ∃ d, normalizeTeamSetupData gen0 nonObjectEntriesInput = some d ∧
      d.capabilities.length = ([JsValue.null] : List JsValue).length ∧
      d.staffMembers.length = ([JsValue.num .nan] : List JsValue).length ∧
      (∀ (j : ℕ) (h : j < ([JsValue.null] : List JsValue).length)
          (h' : j < d.capabilities.length),
        d.capabilities.get ⟨j, h'⟩
          = normCapOne (gen0 j) (([JsValue.null] : List JsValue).get ⟨j, h⟩)) ∧
      (∀ (j : ℕ) (h : j < ([JsValue.num .nan] : List JsValue).length)
          (h' : j < d.staffMembers.length),
        d.staffMembers.get ⟨j, h'⟩
          = normStaffOne (gen0 (([JsValue.null] : List JsValue).length + j))
              (d.capabilities.map Capability.id)
              (([JsValue.num .nan] : List JsValue).get ⟨j, h⟩)) ∧
      (∀ (j : ℕ) (h : j < ([JsValue.null] : List JsValue).length)
          (h' : j < d.capabilities.length),
        isObjectLiteral (([JsValue.null] : List JsValue).get ⟨j, h⟩) = false →
          d.capabilities.get ⟨j, h'⟩ = ⟨gen0 j, "", ""⟩) ∧
      (∀ (j : ℕ) (h : j < ([JsValue.num .nan] : List JsValue).length)
          (h' : j < d.staffMembers.length),
        isObjectLiteral (([JsValue.num .nan] : List JsValue).get ⟨j, h⟩) = false →
          d.staffMembers.get ⟨j, h'⟩
            = ⟨gen0 (([JsValue.null] : List JsValue).length + j), "", "", 1, []⟩) :=
  c10_normalize_entrywise gen0 nonObjectEntriesInput [JsValue.null] [JsValue.num .nan] rfl rfl

/-- C2: for a state whose ids are non-empty whitespace-free strings, whose
capacities lie in `[0.5, 1.5]`, and whose staff `capabilityIds` only
reference existing capability ids, normalizing the exported (JSON
round-tripped) snapshot reproduces the state exactly: export
followed by import is idempotent. -/
theorem c2_export_import_roundtrip (fresh : Nat → String)
    (teamCode teamName savedAt : String) (st : TeamSetupData)
    (hcap : ∀ c ∈ st.capabilities, c.id ≠ "" ∧ WsFree c.id)
    (hstaff : ∀ m ∈ st.staffMembers, m.id ≠ "" ∧ WsFree m.id ∧
      1/2 ≤ m.capacity ∧ m.capacity ≤ 3/2 ∧
      (∀ cid ∈ m.capabilityIds, cid ∈ st.capabilities.map Capability.id)) :
    normalizeTeamSetupData fresh (exportTeamSetup teamCode teamName savedAt st)
      = some st := by
  show some (TeamSetupData.mk
      (normCaps fresh 0 (st.capabilities.map capabilityToJs))
      (normStaffs fresh
        ((normCaps fresh 0 (st.capabilities.map capabilityToJs)).map Capability.id)
        (st.capabilities.map capabilityToJs).length
        (st.staffMembers.map staffMemberToJs))) = some st
  rw [normCaps_export fresh st.capabilities hcap 0]
  rw [normStaffs_export fresh (st.capabilities.map Capability.id) st.staffMembers hstaff
    (st.capabilities.map capabilityToJs).length]

theorem c2_export_import_roundtrip_witness :
    normalizeTeamSetupData gen0
        (exportTeamSetup "T" "Team" "now"
          ⟨[⟨"x", "C1", "d"⟩], [⟨"s", "S1", "Ann", 1, ["x"]⟩]⟩)
      = some ⟨[⟨"x", "C1", "d"⟩], [⟨"s", "S1", "Ann", 1, ["x"]⟩]⟩ :=
  c2_export_import_roundtrip gen0 "T" "Team" "now"
    ⟨[⟨"x", "C1", "d"⟩], [⟨"s", "S1", "Ann", 1, ["x"]⟩]⟩
    (by
      intro c hc
      simp only [List.mem_singleton] at hc
      subst hc
      exact ⟨by decide, by decide⟩)
    (by
      intro m hm
      simp only [List.mem_singleton] at hm
      subst hm
      exact ⟨by decide, by decide, by norm_num, by norm_num, by decide⟩)

/-- C8 counterexample: importing a payload with two capabilities sharing the
id `"a"` produces a Capabilities collection with duplicate ids —
normalization does not enforce uniqueness. -/
theorem c8_unique_ids_counterexample :
    (normalizeTeamSetupData gen0 dupIdInput).map (fun d => d.capabilities.map Capability.id)
      = some ["a", "a"] ∧ ¬ (["a", "a"] : List String).Nodup :=
  ⟨rfl, by decide⟩

/-- C8 (amended): editing a capability and deleting a capability preserve
pairwise-distinct capability ids, and adding a capability preserves them
provided the generated id is not already present; wholesale replacement
through normalization enforces no uniqueness (duplicate imported ids are
kept as-is). -/
theorem c8_unique_ids_amended :
    (∀ (caps : List Capability) (cid : String) (key : CapField) (value : String),
      (caps.map Capability.id).Nodup →
      ((handleCapabilityChange cid key value caps).map Capability.id).Nodup) ∧
    (∀ (st : TeamSetupData) (cid : String),
      (st.capabilities.map Capability.id).Nodup →
      ((handleDeleteCapability cid st).capabilities.map Capability.id).Nodup) ∧
    (∀ (caps : List Capability) (fresh : String),
      (caps.map Capability.id).Nodup → fresh ∉ caps.map Capability.id →
      ((handleAddCapability fresh caps).map Capability.id).Nodup) := by
  refine ⟨?_, ?_, ?_⟩
  · intro caps cid key value h
    have hids : (handleCapabilityChange cid key value caps).map Capability.id
        = caps.map Capability.id := by
      unfold handleCapabilityChange
      rw [List.map_map]
      apply List.map_congr_left
      intro c _
      show (if c.id = cid then
          match key with
          | CapField.code => { c with code := value }
          | CapField.description => { c with description := value }
        else c).id = c.id
      split_ifs with hcid
      · cases key <;> rfl
      · rfl
    rw [hids]
    exact h
  · intro st cid h
    exact List.Nodup.sublist (List.Sublist.map _ (List.filter_sublist _)) h
  · intro caps fresh h hnot
    unfold handleAddCapability
    rw [List.map_append]
    exact List.Nodup.append h (List.nodup_singleton _)
      (List.disjoint_singleton.mpr hnot)

theorem c8_unique_ids_amended_witness :
    ((handleDeleteCapability "x"
        ⟨[⟨"x", "C1", "d"⟩, ⟨"y", "C2", "e"⟩], []⟩).capabilities.map Capability.id).Nodup :=
  c8_unique_ids_amended.2.1 ⟨[⟨"x", "C1", "d"⟩, ⟨"y", "C2", "e"⟩], []⟩ "x" (by decide)

theorem c5_capacity_clamped_witness :
    1/2 ≤ ((handleStaffCapacityChange "s1" "150"
        [⟨"s1", "S1", "Ann", 1, []⟩]).get ⟨0, by decide⟩).capacity ∧
      ((handleStaffCapacityChange "s1" "150"
        [⟨"s1", "S1", "Ann", 1, []⟩]).get ⟨0, by decide⟩).capacity ≤ 3/2 :=
  ((c5_capacity_clamped "s1" "150" [⟨"s1", "S1", "Ann", 1, []⟩]).2.2.1
    0 (by decide) (by decide) (by decide)).1
